import Mathlib

/-!
Shallow embedding of the wind-and-solar ingestion pipeline of this
repository (the modules utils/fetcher.py and utils/preprocessing.py):
field-keyed records, deduplication, field normalization, processed-data
validation, date chunk planning, the single-chunk fetcher and the fetch
orchestrator, together with theorems settling the specification claims
about them.

Modelling conventions: Python dictionaries become association lists with
first-match lookup; Python None becomes an explicit null value; raising
code returns Except; dates and datetimes (always at day granularity in
this pipeline) become integer day numbers, so that adding a timedelta of
d days is adding d and the .days of a difference is subtraction.
-/

/-- Values stored in a record field, mirroring the Python values occurring in
the pipeline: None, strings, integers, and finite decimal numbers. -/
inductive Value where
  | null : Value
  | s (v : String) : Value
  | i (v : Int) : Value
  | q (v : Rat) : Value
deriving DecidableEq, Repr

instance {ε α : Type} [DecidableEq ε] [DecidableEq α] : DecidableEq (Except ε α)
  | .error e, .error f =>
      if h : e = f then .isTrue (by rw [h]) else .isFalse (by simp [h])
  | .error _, .ok _ => .isFalse (by simp)
  | .ok _, .error _ => .isFalse (by simp)
  | .ok a, .ok b =>
      if h : a = b then .isTrue (by rw [h]) else .isFalse (by simp [h])

/-- A record, i.e. a Python dict keyed by field names. Dicts have unique keys
and preserve insertion order; an association list with first-match lookup
models them. -/
abbrev Record := List (String × Value)

/-- First binding of a field in a record (Python dict indexing, as Option). -/
def dictGet (r : Record) (f : String) : Option Value :=
  match r with
  | [] => none
  | (k, v) :: rest => if k = f then some v else dictGet rest f

/-- Models record.get(field): None when the field is absent. -/
def pyGet (r : Record) (f : String) : Value :=
  (dictGet r f).getD .null

/-- Models record.get(field, default). -/
def getDefault (r : Record) (f : String) (d : Value) : Value :=
  (dictGet r f).getD d

/-- Lexicographic comparison of character lists by code point. -/
def charListLt : List Char → List Char → Bool
  | [], [] => false
  | [], _ :: _ => true
  | _ :: _, [] => false
  | a :: as, b :: bs =>
    if a.toNat < b.toNat then true
    else if b.toNat < a.toNat then false
    else charListLt as bs

/-- Python string comparison: lexicographic by Unicode code point. -/
def strLt (a b : String) : Bool :=
  charListLt a.data b.data

/-- Comparison of two Python values by the < operator: strings compare
lexicographically, numbers numerically; every other pairing (None with
anything included) raises TypeError. -/
def pyLt : Value → Value → Except String Bool
  | .s a, .s b => .ok (strLt a b)
  | .i a, .i b => .ok (decide (a < b))
  | .q a, .q b => .ok (decide (a < b))
  | .i a, .q b => .ok (decide ((a : Rat) < b))
  | .q a, .i b => .ok (decide (a < (b : Rat)))
  | _, _ => .error "TypeError: unorderable types"

/-- Boolean value of a successful comparison (false on TypeError; only used
where comparability has been checked). -/
def pyLtB (a b : Value) : Bool :=
  match pyLt a b with
  | .ok t => t
  | .error _ => false

/-- Whether two values are comparable (their comparison does not raise). -/
def pyCmpOk (a b : Value) : Bool :=
  match pyLt a b with
  | .ok _ => true
  | .error _ => false

/-- Stable insertion of an element into a list: it goes before the first
element it may precede. -/
def pyInsert (le : α → α → Bool) (x : α) : List α → List α
  | [] => [x]
  | y :: ys => if le x y then x :: y :: ys else y :: pyInsert le x ys

/-- Stable sort with respect to a total boolean preorder le, where le a b
means a may come before b (ties keep original order). -/
def pySort (le : α → α → Bool) : List α → List α
  | [] => []
  | x :: xs => pyInsert le x (pySort le xs)

/-- Models list.sort(key=keyf, reverse=True) on a list of two or more
elements. CPython performs at least one comparison between any two
comparability classes present, so the sort raises TypeError exactly when some
two keys are incomparable; otherwise it is a stable descending sort (an
element precedes another when its key is not smaller). -/
def pySortDescBy (keyf : Record → Value) (l : List Record) :
    Except String (List Record) :=
  if l.all (fun a => l.all (fun b => pyCmpOk (keyf a) (keyf b))) then
    .ok (pySort (fun a b => !(pyLtB (keyf a) (keyf b))) l)
  else .error "TypeError: unorderable types"

/-- The natural key tuple of a record (preprocessing.py lines 19 to 23):
(settlementDate, settlementPeriod, psrType), each via record.get. -/
abbrev NatKey := Value × Value × Value

def natKey (r : Record) : NatKey :=
  (pyGet r "settlementDate", pyGet r "settlementPeriod", pyGet r "psrType")

/-- The deduplication sort key, x.get("publishTime", "") (preprocessing.py
line 31): the empty string when the key is absent, the stored value (None
included) when present. -/
def pubKey (r : Record) : Value :=
  getDefault r "publishTime" (.s "")

/-- Append a record to the group of its key, keeping first-occurrence
insertion order of keys (models a defaultdict(list) keyed by tuples). -/
def groupInsert (gs : List (NatKey × List Record)) (k : NatKey) (r : Record) :
    List (NatKey × List Record) :=
  match gs with
  | [] => [(k, [r])]
  | (k0, rs) :: rest =>
      if k0 = k then (k0, rs ++ [r]) :: rest
      else (k0, rs) :: groupInsert rest k r

/-- The grouping pass of deduplicate_data (preprocessing.py lines 16 to 24). -/
def record_groups (data : List Record) : List (NatKey × List Record) :=
  data.foldl (fun gs r => groupInsert gs (natKey r) r) []

/-- Survivor of one duplicate group (preprocessing.py lines 29 to 34): a group
with more than one member is sorted by publish key descending and its head
kept; a singleton group is kept as is. The records[0] access would raise
IndexError on an empty group; record_groups never builds one. -/
def dedupGroup (records : List Record) : Except String Record :=
  if records.length > 1 then
    match pySortDescBy pubKey records with
    | .ok sorted =>
        match sorted with
        | [] => .error "IndexError"
        | r :: _ => .ok r
    | .error e => .error e
  else
    match records with
    | [] => .error "IndexError"
    | r :: _ => .ok r

/-- Effect of a Python for loop that builds a list and whose body may raise:
stop at the first raise, otherwise collect the results in order. -/
def mapMEx (f : α → Except ε β) : List α → Except ε (List β)
  | [] => .ok []
  | a :: as =>
    match f a with
    | .error e => .error e
    | .ok b =>
      match mapMEx f as with
      | .error e => .error e
      | .ok bs => .ok (b :: bs)

/-- deduplicate_data (preprocessing.py lines 9 to 37): group by natural key
and keep one survivor per group, in first-occurrence key order; empty input
maps to the empty list. -/
def deduplicate_data (data : List Record) : Except String (List Record) :=
  if data.isEmpty then .ok []
  else mapMEx (fun p => dedupGroup p.2) (record_groups data)

/-- Well-formedness of a group list: distinct keys, no empty group, every
member of a group carries the key of its group. -/
def GroupsWF (gs : List (NatKey × List Record)) : Prop :=
  (gs.map Prod.fst).Nodup ∧ ∀ p ∈ gs, p.2 ≠ [] ∧ ∀ r ∈ p.2, natKey r = p.1

theorem groupInsert_keys (gs : List (NatKey × List Record)) (k : NatKey)
    (r : Record) :
    (groupInsert gs k r).map Prod.fst =
      if k ∈ gs.map Prod.fst then gs.map Prod.fst else gs.map Prod.fst ++ [k] := by
  induction gs with
  | nil => simp [groupInsert]
  | cons p rest ih =>
    obtain ⟨k0, rs⟩ := p
    by_cases h : k0 = k
    · subst h
      simp [groupInsert]
    · have h2 : ¬ k = k0 := fun hk => h hk.symm
      by_cases hm : k ∈ rest.map Prod.fst <;>
        simp [groupInsert, h, ih, h2, hm]

theorem mem_groupInsert_keys (gs : List (NatKey × List Record)) (k k0 : NatKey)
    (r : Record) :
    k0 ∈ (groupInsert gs k r).map Prod.fst ↔ k0 ∈ gs.map Prod.fst ∨ k0 = k := by
  rw [groupInsert_keys]
  by_cases hm : k ∈ gs.map Prod.fst
  · rw [if_pos hm]
    constructor
    · exact fun h => Or.inl h
    · rintro (h | h)
      · exact h
      · exact h ▸ hm
  · rw [if_neg hm]
    simp

theorem groupInsert_members (gs : List (NatKey × List Record)) (r : Record)
    (hmem : ∀ p ∈ gs, p.2 ≠ [] ∧ ∀ x ∈ p.2, natKey x = p.1) :
    ∀ p ∈ groupInsert gs (natKey r) r, p.2 ≠ [] ∧ ∀ x ∈ p.2, natKey x = p.1 := by
  induction gs with
  | nil =>
    intro p hp
    have hins : groupInsert [] (natKey r) r = [(natKey r, [r])] := rfl
    rw [hins, List.mem_singleton] at hp
    subst hp
    exact ⟨by simp, by simp⟩
  | cons q rest ih =>
    obtain ⟨k0, rs⟩ := q
    intro p hp
    by_cases hk : k0 = natKey r
    · subst hk
      have hins : groupInsert ((natKey r, rs) :: rest) (natKey r) r
          = (natKey r, rs ++ [r]) :: rest := by
        simp [groupInsert]
      rw [hins, List.mem_cons] at hp
      rcases hp with hp | hp
      · subst hp
        refine ⟨by simp, ?_⟩
        intro x hx
        rcases List.mem_append.mp hx with hx | hx
        · exact (hmem (natKey r, rs) (by simp)).2 x hx
        · simp only [List.mem_singleton] at hx
          subst hx
          rfl
      · exact hmem p (List.mem_cons_of_mem _ hp)
    · have hins : groupInsert ((k0, rs) :: rest) (natKey r) r
          = (k0, rs) :: groupInsert rest (natKey r) r := by
        simp [groupInsert, hk]
      rw [hins, List.mem_cons] at hp
      rcases hp with hp | hp
      · subst hp
        exact hmem (k0, rs) (by simp)
      · exact ih (fun q hq => hmem q (List.mem_cons_of_mem _ hq)) p hp

theorem groupInsert_wf (gs : List (NatKey × List Record)) (r : Record)
    (h : GroupsWF gs) : GroupsWF (groupInsert gs (natKey r) r) := by
  obtain ⟨hnd, hmem⟩ := h
  constructor
  · rw [groupInsert_keys]
    by_cases hm : natKey r ∈ gs.map Prod.fst
    · rw [if_pos hm]; exact hnd
    · rw [if_neg hm]
      apply List.Nodup.append hnd (List.nodup_singleton _)
      intro a ha hak
      simp only [List.mem_singleton] at hak
      exact hm (hak ▸ ha)
  · exact groupInsert_members gs r hmem

/-- Total number of records held by a group list. -/
def sumSizes (gs : List (NatKey × List Record)) : Nat :=
  (gs.map (fun p => p.2.length)).sum

theorem sumSizes_groupInsert (gs : List (NatKey × List Record)) (k : NatKey)
    (r : Record) : sumSizes (groupInsert gs k r) = sumSizes gs + 1 := by
  induction gs with
  | nil => simp [groupInsert, sumSizes]
  | cons p rest ih =>
    obtain ⟨k0, rs⟩ := p
    by_cases h : k0 = k
    · subst h
      simp [groupInsert, sumSizes]
      omega
    · simp only [groupInsert, if_neg h]
      simp only [sumSizes, List.map_cons, List.sum_cons] at ih ⊢
      omega

theorem length_le_sumSizes (gs : List (NatKey × List Record))
    (h : ∀ p ∈ gs, p.2 ≠ []) : gs.length ≤ sumSizes gs := by
  induction gs with
  | nil => simp [sumSizes]
  | cons p rest ih =>
    have hp : p.2 ≠ [] := h p (by simp)
    have h1 : 1 ≤ p.2.length := by
      cases hrs : p.2 with
      | nil => exact absurd hrs hp
      | cons a as => simp
    have := ih (fun q hq => h q (List.mem_cons_of_mem _ hq))
    simp only [sumSizes, List.map_cons, List.sum_cons, List.length_cons] at *
    omega

theorem record_groups_wf (data : List Record) : GroupsWF (record_groups data) := by
  rw [record_groups]
  have base : GroupsWF ([] : List (NatKey × List Record)) := ⟨by simp, by simp⟩
  generalize ([] : List (NatKey × List Record)) = gs at base ⊢
  induction data generalizing gs with
  | nil => exact base
  | cons r rest ih => exact ih _ (groupInsert_wf gs r base)

theorem record_groups_keys_mem (data : List Record) (k : NatKey) :
    k ∈ (record_groups data).map Prod.fst ↔ k ∈ data.map natKey := by
  rw [record_groups]
  have base : ¬ k ∈ ([] : List (NatKey × List Record)).map Prod.fst := by simp
  have general :
      ∀ (rest : List Record) (gs : List (NatKey × List Record)),
        k ∈ (rest.foldl (fun gs r => groupInsert gs (natKey r) r) gs).map Prod.fst ↔
          k ∈ gs.map Prod.fst ∨ k ∈ rest.map natKey := by
    intro rest
    induction rest with
    | nil => simp
    | cons r rs ih =>
      intro gs
      simp only [List.foldl_cons, List.map_cons, List.mem_cons]
      rw [ih, mem_groupInsert_keys]
      constructor
      · rintro ((h | h) | h)
        · exact Or.inl h
        · exact Or.inr (Or.inl h)
        · exact Or.inr (Or.inr h)
      · rintro (h | h | h)
        · exact Or.inl (Or.inl h)
        · exact Or.inl (Or.inr h)
        · exact Or.inr h
  rw [general data []]
  simp

theorem sumSizes_record_groups (data : List Record) :
    sumSizes (record_groups data) = data.length := by
  rw [record_groups]
  have general :
      ∀ (rest : List Record) (gs : List (NatKey × List Record)),
        sumSizes (rest.foldl (fun gs r => groupInsert gs (natKey r) r) gs) =
          sumSizes gs + rest.length := by
    intro rest
    induction rest with
    | nil => simp
    | cons r rs ih =>
      intro gs
      simp only [List.foldl_cons, List.length_cons, ih, sumSizes_groupInsert]
      omega
  rw [general data []]
  simp [sumSizes]

theorem pyInsert_perm (le : α → α → Bool) (x : α) (l : List α) :
    (pyInsert le x l).Perm (x :: l) := by
  induction l with
  | nil => exact List.Perm.refl _
  | cons y ys ih =>
    rw [pyInsert]
    by_cases h : le x y
    · rw [if_pos h]
    · rw [if_neg h]
      exact List.Perm.trans (List.Perm.cons y ih) (List.Perm.swap x y ys)

theorem pySort_perm (le : α → α → Bool) (l : List α) :
    (pySort le l).Perm l := by
  induction l with
  | nil => exact List.Perm.refl _
  | cons x xs ih =>
    rw [pySort]
    exact List.Perm.trans (pyInsert_perm le x (pySort le xs))
      (List.Perm.cons x ih)

theorem dedupGroup_mem (records : List Record) (r : Record)
    (h : dedupGroup records = .ok r) : r ∈ records := by
  rw [dedupGroup.eq_def] at h
  by_cases hl : records.length > 1
  · rw [if_pos hl] at h
    rw [pySortDescBy] at h
    by_cases hcmp :
        records.all (fun a => records.all (fun b => pyCmpOk (pubKey a) (pubKey b)))
    · rw [if_pos hcmp] at h
      simp only at h
      cases hs : pySort (fun a b => !(pyLtB (pubKey a) (pubKey b))) records with
      | nil => rw [hs] at h; exact absurd h (by simp)
      | cons r0 rest =>
        rw [hs] at h
        simp only [Except.ok.injEq] at h
        have hmem0 : r0 ∈ pySort (fun a b => !(pyLtB (pubKey a) (pubKey b))) records := by
          rw [hs]; simp
        have hmem1 := (pySort_perm _ records).mem_iff.mp hmem0
        cases h
        exact hmem1
    · rw [if_neg hcmp] at h
      exact absurd h (by simp)
  · rw [if_neg hl] at h
    cases records with
    | nil => exact absurd h (by simp)
    | cons r0 rest =>
      simp only [Except.ok.injEq] at h
      subst h
      simp

theorem mapMEx_forall2 (f : α → Except ε β) (l : List α) (out : List β)
    (h : mapMEx f l = .ok out) :
    List.Forall₂ (fun a b => f a = .ok b) l out := by
  induction l generalizing out with
  | nil =>
    rw [mapMEx] at h
    simp only [Except.ok.injEq] at h
    subst h
    exact List.Forall₂.nil
  | cons a as ih =>
    rw [mapMEx] at h
    cases hf : f a with
    | error e => rw [hf] at h; exact absurd h (by simp)
    | ok b =>
      rw [hf] at h
      cases hrec : mapMEx f as with
      | error e => rw [hrec] at h; exact absurd h (by simp)
      | ok bs =>
        rw [hrec] at h
        simp only [Except.ok.injEq] at h
        subst h
        exact List.Forall₂.cons hf (ih bs hrec)

theorem forall2_dedup_keys (gs : List (NatKey × List Record))
    (out : List Record)
    (hf : List.Forall₂ (fun p b => dedupGroup p.2 = .ok b) gs out)
    (hwf : ∀ p ∈ gs, p.2 ≠ [] ∧ ∀ r ∈ p.2, natKey r = p.1) :
    out.map natKey = gs.map Prod.fst := by
  induction hf with
  | nil => rfl
  | cons hab htail ih =>
    rename_i p b ps bs
    have hb : b ∈ p.2 := dedupGroup_mem p.2 b hab
    have hk : natKey b = p.1 := (hwf p (by simp)).2 b hb
    simp only [List.map_cons, hk]
    rw [ih (fun q hq => hwf q (List.mem_cons_of_mem _ hq))]

/-- Concrete record of the duplicate-group example of the specification, with
the earlier publishTime. -/
def recEarly : Record :=
  [("settlementDate", .s "2024-01-01"), ("settlementPeriod", .i 1),
   ("psrType", .s "Solar"), ("publishTime", .s "2024-01-01T00:00:00Z")]

/-- Concrete record sharing the natural key of recEarly, with the later
publishTime. -/
def recLate : Record :=
  [("settlementDate", .s "2024-01-01"), ("settlementPeriod", .i 1),
   ("psrType", .s "Solar"), ("publishTime", .s "2024-01-01T01:00:00Z")]

/-- Concrete record sharing the natural key of recLate, whose publishTime key
is present with value None. -/
def recNullPT : Record :=
  [("settlementDate", .s "2024-01-01"), ("settlementPeriod", .i 1),
   ("psrType", .s "Solar"), ("publishTime", .null)]

/-- C1: whenever deduplication returns an output, the output has at most the
length of the input and contains exactly one record per distinct natural key
(settlementDate, settlementPeriod, psrType) of the input: its key list is
duplicate-free and has exactly the input keys as members. On the two-record
group whose publishTimes are 2024-01-01T00:00:00Z and 2024-01-01T01:00:00Z,
the survivor is the record with the lexicographically greater publishTime. -/
theorem dedup_one_per_key (data out : List Record)
    (h : deduplicate_data data = .ok out) :
    out.length ≤ data.length ∧ (out.map natKey).Nodup ∧
      (∀ k, k ∈ out.map natKey ↔ k ∈ data.map natKey) ∧
      deduplicate_data [recEarly, recLate] = .ok [recLate] := by
  have hconc : deduplicate_data [recEarly, recLate] = .ok [recLate] := by decide
  rw [deduplicate_data] at h
  by_cases he : data.isEmpty = true
  · rw [if_pos he] at h
    simp only [Except.ok.injEq] at h
    cases data with
    | nil =>
      cases h
      exact ⟨by simp, by simp, by simp, hconc⟩
    | cons a as => simp [List.isEmpty] at he
  · rw [if_neg he] at h
    have hf := mapMEx_forall2 (fun p => dedupGroup p.2) (record_groups data) out h
    have hwf := record_groups_wf data
    have hkeys : out.map natKey = (record_groups data).map Prod.fst :=
      forall2_dedup_keys _ _ hf hwf.2
    refine ⟨?_, ?_, ?_, hconc⟩
    · calc out.length = (record_groups data).length := hf.length_eq.symm
        _ ≤ sumSizes (record_groups data) :=
            length_le_sumSizes _ (fun p hp => (hwf.2 p hp).1)
        _ = data.length := sumSizes_record_groups data
    · rw [hkeys]; exact hwf.1
    · intro k
      rw [hkeys]
      exact record_groups_keys_mem data k

theorem dedup_one_per_key_witness :
    ([recLate] : List Record).length ≤ ([recEarly, recLate] : List Record).length ∧
      (([recLate] : List Record).map natKey).Nodup ∧
      (∀ k, k ∈ ([recLate] : List Record).map natKey ↔
        k ∈ ([recEarly, recLate] : List Record).map natKey) ∧
      deduplicate_data [recEarly, recLate] = .ok [recLate] :=
  dedup_one_per_key [recEarly, recLate] [recLate] (by decide)

/-- The nine expected fields of the normalizer (preprocessing.py lines 46
to 49), in source order. -/
def expected_fields : List String :=
  ["publishTime", "businessType", "psrType", "quantity",
   "startTime", "settlementDate", "settlementPeriod", "fuelType", "region"]

/-- One record of handle_missing_fields (preprocessing.py lines 54 to 68): the
nine expected fields in order, a present non-null value copied through and
anything else an explicit null, followed by the fields outside the expected
set in record order. -/
def process_record (record : Record) : Record :=
  (expected_fields.map fun f =>
    (f,
      match dictGet record f with
      | some v => if v = .null then Value.null else v
      | none => Value.null)) ++
  record.filter (fun p => !(expected_fields.contains p.1))

/-- handle_missing_fields (preprocessing.py lines 39 to 76): empty input maps
to the empty list, otherwise every record is widened to the expected schema.
The per-field missing counters of the source only feed the operational log and
are not part of the return value. -/
def handle_missing_fields (data : List Record) : List Record :=
  if data.isEmpty then [] else data.map process_record

/-- The four critical fields of the processed quality gate (preprocessing.py
line 85). -/
def critical_fields : List String :=
  ["settlementDate", "settlementPeriod", "psrType", "quantity"]

/-- Increment of a defaultdict(int) counter keyed by field name, keeping
insertion order. -/
def bumpCount (l : List (String × Nat)) (f : String) : List (String × Nat) :=
  match l with
  | [] => [(f, 1)]
  | (g, n) :: rest => if g = f then (g, n + 1) :: rest else (g, n) :: bumpCount rest f

/-- Counter lookup in a defaultdict(int) representation (none when the key was
never incremented, i.e. field in missing_critical is false). -/
def countOf (l : List (String × Nat)) (f : String) : Option Nat :=
  match l with
  | [] => none
  | (g, n) :: rest => if g = f then some n else countOf rest f

/-- Insertion into a Python set, modelled as an insertion-ordered duplicate-free
list (only membership and size are observed). -/
def addDistinct (l : List Value) (v : Value) : List Value :=
  if v ∈ l then l else l ++ [v]

/-- Python truthiness of a value: None, empty strings, and zero are falsy. -/
def truthy : Value → Bool
  | .null => false
  | .s v => decide (v ≠ "")
  | .i n => decide (n ≠ 0)
  | .q x => decide (x ≠ 0)

/-- Accumulated state of the validation loop of validate_processed_data
(preprocessing.py lines 86 to 109). -/
structure ValState where
  missing_critical : List (String × Nat)
  records_with_missing_critical : Nat
  fuel_types : List Value
  settlement_dates : List Value
  quantities : List Value

/-- The critical-field scan of one record (preprocessing.py lines 94 to 99):
a per-field counter bump and a has-missing-critical flag. -/
def criticalScan (mc : List (String × Nat)) (record : Record) :
    List (String × Nat) × Bool :=
  critical_fields.foldl
    (fun acc f => if pyGet record f = .null then (bumpCount acc.1 f, true) else acc)
    (mc, false)

/-- One iteration of the validation loop (preprocessing.py lines 93 to 109). -/
def valStep (st : ValState) (record : Record) : ValState :=
  let scan := criticalScan st.missing_critical record
  { missing_critical := scan.1
    records_with_missing_critical :=
      st.records_with_missing_critical + (if scan.2 then 1 else 0)
    fuel_types :=
      if truthy (pyGet record "psrType") then
        addDistinct st.fuel_types (pyGet record "psrType")
      else st.fuel_types
    settlement_dates :=
      if truthy (pyGet record "settlementDate") then
        addDistinct st.settlement_dates (pyGet record "settlementDate")
      else st.settlement_dates
    quantities :=
      if pyGet record "quantity" = .null then st.quantities
      else st.quantities ++ [pyGet record "quantity"] }

/-- Models round(x, 2) applied to the exact rational num/den with den
positive: half-up rounding at two decimal places,
round(num/den × 100)/100 with round(q) = floor(q + 1/2). CPython rounds the
closest binary double half to even; away from exact decimal ties the two
agree, and every instance appearing in the claims is tie-free. -/
def round2 (num den : Int) : Rat :=
  ((Int.fdiv (2 * (100 * num) + den) (2 * den) : Int) : Rat) / 100

/-- The report of validate_processed_data as a structure. The untyped display
aggregates of the Python dict (sorted fuel-type list, min and max settlement
date, min, max and mean quantity) are represented by the underlying collected
sets and counts; every claim about the report concerns status, message,
counts, missing statistics and the quality score. For the error report the
numeric fields are zero and the lists empty (the Python error dict carries
only status and message). -/
structure ValidationResult where
  status : String
  message : Option String
  record_count : Nat
  fuel_types : List Value
  unique_dates : Nat
  missing_stats : List (String × Nat × Rat)
  data_quality_score : Rat
  quantity_count : Nat
  records_with_missing_critical : Nat
deriving Repr

/-- validate_processed_data (preprocessing.py lines 78 to 146). -/
def validate_processed_data (data : List Record) : ValidationResult :=
  if data.isEmpty then
    { status := "error", message := some "No data to validate",
      record_count := 0, fuel_types := [], unique_dates := 0,
      missing_stats := [], data_quality_score := 0, quantity_count := 0,
      records_with_missing_critical := 0 }
  else
    let st := data.foldl valStep ⟨[], 0, [], [], []⟩
    { status := "success", message := none,
      record_count := data.length,
      fuel_types := st.fuel_types,
      unique_dates := st.settlement_dates.length,
      missing_stats :=
        critical_fields.filterMap fun f =>
          (countOf st.missing_critical f).map fun c =>
            (f, c, ((c : Int) : Rat) / ((data.length : Int) : Rat) * 100),
      data_quality_score :=
        round2 (100 * ((data.length : Int) - (st.records_with_missing_critical : Int)))
          (data.length : Int),
      quantity_count := st.quantities.length,
      records_with_missing_critical := st.records_with_missing_critical }

/-- Whether a record has at least one null critical field. -/
def hasMissingCritical (record : Record) : Bool :=
  critical_fields.any fun f => decide (pyGet record f = .null)

theorem dictGet_append (l1 l2 : Record) (f : String) :
    dictGet (l1 ++ l2) f =
      match dictGet l1 f with
      | some v => some v
      | none => dictGet l2 f := by
  induction l1 with
  | nil => simp [dictGet]
  | cons p rest ih =>
    obtain ⟨k, v⟩ := p
    by_cases h : k = f <;> simp [dictGet, h, ih]

theorem dictGet_mapKeys (fields : List String) (val : String → Value)
    (f : String) :
    dictGet (fields.map fun g => (g, val g)) f =
      if f ∈ fields then some (val f) else none := by
  induction fields with
  | nil => simp [dictGet]
  | cons g gs ih =>
    by_cases h : g = f
    · subst h
      simp [dictGet]
    · have h2 : ¬ f = g := fun e => h e.symm
      simp [dictGet, h, ih, h2]

theorem dictGet_filter_not_expected (record : Record) (f : String)
    (hf : f ∉ expected_fields) :
    dictGet (record.filter fun p => !(expected_fields.contains p.1)) f =
      dictGet record f := by
  induction record with
  | nil => simp [dictGet]
  | cons p rest ih =>
    obtain ⟨k, v⟩ := p
    rw [List.filter_cons]
    by_cases hk : k = f
    · subst hk
      have hc : (!expected_fields.contains (k, v).1) = true := by simp [hf]
      rw [if_pos hc]
      simp [dictGet]
    · have hr : dictGet ((k, v) :: rest) f = dictGet rest f := by
        rw [dictGet, if_neg hk]
      by_cases he : k ∈ expected_fields
      · have hc : ¬ (!expected_fields.contains (k, v).1) = true := by simp [he]
        rw [if_neg hc, hr]
        exact ih
      · have hc : (!expected_fields.contains (k, v).1) = true := by simp [he]
        rw [if_pos hc]
        have hl : dictGet
            ((k, v) :: List.filter (fun p => !expected_fields.contains p.1) rest) f =
            dictGet (List.filter (fun p => !expected_fields.contains p.1) rest) f := by
          rw [dictGet, if_neg hk]
        rw [hl, hr]
        exact ih

/-- C6: the Field Normalizer maps empty input to empty output and every other
input record-wise through process_record; each output record binds all nine
expected keys, with an absent-or-null source value stored as an explicit null
and a present non-null value copied through, and every key outside the
expected set keeps exactly the binding it has in the input record. -/
theorem normalizer_schema (data : List Record) :
    handle_missing_fields ([] : List Record) = [] ∧
    handle_missing_fields data = data.map process_record ∧
    ∀ record ∈ data,
      (∀ f ∈ expected_fields,
        dictGet (process_record record) f = some (pyGet record f)) ∧
      (∀ f, f ∉ expected_fields →
        dictGet (process_record record) f = dictGet record f) := by
  refine ⟨rfl, ?_, ?_⟩
  · rw [handle_missing_fields]
    by_cases he : data.isEmpty = true
    · rw [if_pos he]
      cases data with
      | nil => rfl
      | cons a as => simp [List.isEmpty] at he
    · rw [if_neg he]
  · intro record _
    constructor
    · intro f hf
      rw [process_record, dictGet_append, dictGet_mapKeys, if_pos hf]
      cases hd : dictGet record f with
      | none => simp [pyGet, hd]
      | some v =>
        by_cases hv : v = .null
        · subst hv
          simp [pyGet, hd]
        · simp [pyGet, hd, hv]
    · intro f hf
      rw [process_record, dictGet_append, dictGet_mapKeys, if_neg hf]
      exact dictGet_filter_not_expected record f hf

/-- Concrete record with one expected field and one extra field. -/
def recExtra : Record :=
  [("psrType", .s "Solar"), ("customTag", .s "x")]

theorem normalizer_schema_witness :
    dictGet (process_record recExtra) "publishTime" =
        some (pyGet recExtra "publishTime") ∧
      dictGet (process_record recExtra) "customTag" = dictGet recExtra "customTag" :=
  ⟨((normalizer_schema [recExtra]).2.2 recExtra (by simp)).1 "publishTime" (by decide),
   ((normalizer_schema [recExtra]).2.2 recExtra (by simp)).2 "customTag" (by decide)⟩

theorem scan_flag (record : Record) (fields : List String)
    (mc : List (String × Nat)) (b : Bool) :
    (fields.foldl
      (fun acc f => if pyGet record f = .null then (bumpCount acc.1 f, true) else acc)
      (mc, b)).2 = (b || fields.any fun f => decide (pyGet record f = .null)) := by
  induction fields generalizing mc b with
  | nil => simp
  | cons f fs ih =>
    simp only [List.foldl_cons, List.any_cons]
    by_cases h : pyGet record f = .null
    · rw [if_pos h, ih]
      simp [h]
    · rw [if_neg h, ih]
      simp [h]

theorem foldl_valStep_count (data : List Record) (init : ValState) :
    (data.foldl valStep init).records_with_missing_critical =
      init.records_with_missing_critical + data.countP hasMissingCritical := by
  induction data generalizing init with
  | nil => simp
  | cons r rs ih =>
    simp only [List.foldl_cons, List.countP_cons, ih]
    have hflag : (criticalScan init.missing_critical r).2 = hasMissingCritical r := by
      rw [criticalScan, scan_flag]
      simp [hasMissingCritical]
    simp only [valStep, hflag]
    by_cases h : hasMissingCritical r = true
    · simp [h]
      omega
    · simp [h]

theorem validate_status (d : List Record) (hd : d ≠ []) :
    (validate_processed_data d).status = "success" := by
  have hne : ¬ d.isEmpty = true := by
    cases d with
    | nil => exact absurd rfl hd
    | cons a as => simp [List.isEmpty]
  rw [validate_processed_data, if_neg hne]

theorem validate_rwmc (d : List Record) (hd : d ≠ []) :
    (validate_processed_data d).records_with_missing_critical =
      d.countP hasMissingCritical := by
  have hne : ¬ d.isEmpty = true := by
    cases d with
    | nil => exact absurd rfl hd
    | cons a as => simp [List.isEmpty]
  rw [validate_processed_data, if_neg hne]
  show (d.foldl valStep ⟨[], 0, [], [], []⟩).records_with_missing_critical = _
  rw [foldl_valStep_count]
  simp

theorem validate_score (d : List Record) (hd : d ≠ []) :
    (validate_processed_data d).data_quality_score =
      round2 (100 * ((d.length : Int) - (d.countP hasMissingCritical : Int)))
        (d.length : Int) := by
  have hne : ¬ d.isEmpty = true := by
    cases d with
    | nil => exact absurd rfl hd
    | cons a as => simp [List.isEmpty]
  rw [validate_processed_data, if_neg hne]
  show round2
      (100 * ((d.length : Int) -
        ((d.foldl valStep ⟨[], 0, [], [], []⟩).records_with_missing_critical : Int)))
      (d.length : Int) = _
  rw [foldl_valStep_count]
  simp

/-- Concrete fully-complete record, first of the three-record example. -/
def recComplete1 : Record :=
  [("settlementDate", .s "2024-01-01"), ("settlementPeriod", .i 1),
   ("psrType", .s "Solar"), ("quantity", .i 100)]

/-- Concrete fully-complete record, second of the three-record example. -/
def recComplete2 : Record :=
  [("settlementDate", .s "2024-01-01"), ("settlementPeriod", .i 2),
   ("psrType", .s "Solar"), ("quantity", .i 200)]

/-- Concrete record with a missing critical field (no quantity). -/
def recNoQuantity : Record :=
  [("settlementDate", .s "2024-01-02"), ("settlementPeriod", .i 1),
   ("psrType", .s "Wind Onshore")]

/-- C2: for every non-empty input the processed quality gate reports success,
counts exactly the records having at least one null critical field (each such
record once, however many of its critical fields are null), and scores
(total - that count) / total × 100 rounded to two decimals; two fully
complete records out of three score exactly 66.67, and zero complete out of
one scores 0. -/
theorem quality_score_formula (data : List Record) (h : data ≠ []) :
    (validate_processed_data data).status = "success" ∧
    (validate_processed_data data).records_with_missing_critical =
      data.countP hasMissingCritical ∧
    (validate_processed_data data).data_quality_score =
      round2 (100 * ((data.length : Int) - (data.countP hasMissingCritical : Int)))
        (data.length : Int) ∧
    (validate_processed_data
        [recComplete1, recComplete2, recNoQuantity]).data_quality_score = 6667 / 100 ∧
    (validate_processed_data [recNoQuantity]).data_quality_score = 0 := by
  refine ⟨validate_status data h, validate_rwmc data h, validate_score data h, ?_, ?_⟩
  · have hc3 : ([recComplete1, recComplete2, recNoQuantity] : List Record).countP
        hasMissingCritical = 1 := by decide
    have hs3 := validate_score [recComplete1, recComplete2, recNoQuantity] (by simp)
    rw [hc3] at hs3
    norm_num at hs3
    rw [hs3, round2]
    have e : Int.fdiv (2 * (100 * 200) + 3) (2 * 3) = 6667 := by decide
    rw [e]
    norm_num
  · have hc1 : ([recNoQuantity] : List Record).countP hasMissingCritical = 1 := by
      decide
    have hs1 := validate_score [recNoQuantity] (by simp)
    rw [hc1] at hs1
    norm_num at hs1
    rw [hs1, round2]
    have e : Int.fdiv (2 * (100 * 0) + 1) (2 * 1) = 0 := by decide
    rw [e]
    norm_num

theorem quality_score_formula_witness :
    (validate_processed_data
        [recComplete1, recComplete2, recNoQuantity]).status = "success" ∧
    (validate_processed_data
        [recComplete1, recComplete2, recNoQuantity]).records_with_missing_critical =
      ([recComplete1, recComplete2, recNoQuantity] : List Record).countP
        hasMissingCritical ∧
    (validate_processed_data
        [recComplete1, recComplete2, recNoQuantity]).data_quality_score =
      round2
        (100 * ((([recComplete1, recComplete2, recNoQuantity] : List Record).length : Int) -
          (([recComplete1, recComplete2, recNoQuantity] : List Record).countP
            hasMissingCritical : Int)))
        (([recComplete1, recComplete2, recNoQuantity] : List Record).length : Int) ∧
    (validate_processed_data
        [recComplete1, recComplete2, recNoQuantity]).data_quality_score = 6667 / 100 ∧
    (validate_processed_data [recNoQuantity]).data_quality_score = 0 :=
  quality_score_formula [recComplete1, recComplete2, recNoQuantity] (by simp)

/-- C10: the deduplication sort key maps a record without a publishTime key to
the empty string, but a record whose publishTime is present with value None to
None itself; hence on two records sharing a natural key, one with a null
publishTime and one with a string publishTime, deduplication raises a
comparison TypeError instead of returning a survivor. -/
theorem dedup_null_publishTime_raises :
    pubKey [("settlementDate", .s "2024-01-01")] = .s "" ∧
      pubKey recNullPT = .null ∧
      deduplicate_data [recNullPT, recLate] = .error "TypeError: unorderable types" := by
  decide

/-- MAX_CHUNK_DAYS (fetcher.py line 16), the default planner chunk size. -/
def MAX_CHUNK_DAYS : Int := 6

/-- The chunk-end computation of one planner iteration (fetcher.py lines 26
to 31): chunk_end = current + (days - 1) capped at end; the recomputation
when actual_days exceeds days is kept from the source even though it never
fires at day granularity. -/
def chunkEndOf (current endd days : Int) : Int :=
  if min (current + (days - 1)) endd - current + 1 > days then current + (days - 1)
  else min (current + (days - 1)) endd

/-- date_chunks (fetcher.py lines 20 to 36) over dates as integer day
numbers. The Python generator loops forever when days is not positive
(current never advances past end); the model returns the empty sequence
there, and every claim about the planner assumes a positive chunk size. The
days argument defaults to MAX_CHUNK_DAYS at every call site of the source. -/
def date_chunks (start endd days : Int) : List (Int × Int) :=
  if hd : days ≤ 0 then []
  else if hle : start ≤ endd then
    (start, chunkEndOf start endd days) ::
      date_chunks (chunkEndOf start endd days + 1) endd days
  else []
termination_by (endd - start + 1).toNat
decreasing_by
  simp only [chunkEndOf]
  split <;> omega

theorem chunkEndOf_eq (current endd days : Int) :
    chunkEndOf current endd days = min (current + (days - 1)) endd := by
  rw [chunkEndOf, if_neg (by omega)]

theorem date_chunks_nil (start endd days : Int) (h : ¬ start ≤ endd) :
    date_chunks start endd days = [] := by
  rw [date_chunks]
  by_cases hd : days ≤ 0
  · rw [dif_pos hd]
  · rw [dif_neg hd, dif_neg h]

theorem date_chunks_unfold (start endd days : Int) (hd : ¬ days ≤ 0)
    (hle : start ≤ endd) :
    date_chunks start endd days =
      (start, chunkEndOf start endd days) ::
        date_chunks (chunkEndOf start endd days + 1) endd days := by
  rw [date_chunks, dif_neg hd, dif_pos hle]

theorem date_chunks_spec_aux (endd days : Int) (hdays : 0 < days) :
    ∀ (n : Nat) (start : Int), start ≤ endd → (endd - start).toNat ≤ n →
      date_chunks start endd days ≠ [] ∧
      ((date_chunks start endd days).map Prod.fst).head? = some start ∧
      ((date_chunks start endd days).map Prod.snd).getLast? = some endd ∧
      (∀ c ∈ date_chunks start endd days,
        start ≤ c.1 ∧ c.1 ≤ c.2 ∧ c.2 ≤ endd ∧ c.2 - c.1 + 1 ≤ days) ∧
      List.Chain' (fun a b => b.1 = a.2 + 1) (date_chunks start endd days) ∧
      List.Pairwise (fun a b => a.2 < b.1) (date_chunks start endd days) ∧
      (∀ d : Int, (start ≤ d ∧ d ≤ endd) ↔
        ∃ c ∈ date_chunks start endd days, c.1 ≤ d ∧ d ≤ c.2) := by
  intro n
  induction n with
  | zero =>
    intro s hle hn
    have hse : s = endd := by omega
    subst hse
    have hmin : chunkEndOf s s days = s := by
      rw [chunkEndOf_eq]
      omega
    have hnil : date_chunks (s + 1) s days = [] :=
      date_chunks_nil _ _ _ (by omega)
    rw [date_chunks_unfold s s days (by omega) le_rfl, hmin, hnil]
    refine ⟨by simp, by simp, by simp, ?_, by simp, by simp, ?_⟩
    · intro c hc
      simp only [List.mem_singleton] at hc
      subst hc
      exact ⟨le_rfl, le_rfl, le_rfl, by omega⟩
    · intro d
      constructor
      · rintro ⟨hd1, hd2⟩
        exact ⟨(s, s), by simp, hd1, hd2⟩
      · rintro ⟨c, hc, hd1, hd2⟩
        simp only [List.mem_singleton] at hc
        subst hc
        exact ⟨hd1, hd2⟩
  | succ n ih =>
    intro s hle hn
    have hce := chunkEndOf_eq s endd days
    have hb : s ≤ chunkEndOf s endd days ∧ chunkEndOf s endd days ≤ endd ∧
        chunkEndOf s endd days - s + 1 ≤ days := by
      rw [hce]
      omega
    rw [date_chunks_unfold s endd days (by omega) hle]
    by_cases hnext : chunkEndOf s endd days + 1 ≤ endd
    · have hn2 : (endd - (chunkEndOf s endd days + 1)).toNat ≤ n := by omega
      obtain ⟨ih1, ih2, ih3, ih4, ih5, ih6, ih7⟩ :=
        ih (chunkEndOf s endd days + 1) hnext hn2
      obtain ⟨b, l, hbl⟩ :
          ∃ b l, date_chunks (chunkEndOf s endd days + 1) endd days = b :: l := by
        cases hcs : date_chunks (chunkEndOf s endd days + 1) endd days with
        | nil => exact absurd hcs ih1
        | cons b l => exact ⟨b, l, rfl⟩
      have hb1 : b.1 = chunkEndOf s endd days + 1 := by
        rw [hbl] at ih2
        simpa using ih2
      refine ⟨by simp, by simp, ?_, ?_, ?_, ?_, ?_⟩
      · rw [hbl] at ih3 ⊢
        simpa using ih3
      · intro c hc
        rw [hbl] at hc
        rcases List.mem_cons.mp hc with hc | hc
        · subst hc
          exact ⟨le_rfl, hb.1, hb.2.1, by omega⟩
        · rw [hbl] at ih4
          obtain ⟨a1, a2, a3, a4⟩ := ih4 c hc
          exact ⟨by omega, a2, a3, a4⟩
      · rw [hbl]
        rw [List.chain'_cons]
        refine ⟨by simpa using hb1, ?_⟩
        rw [hbl] at ih5
        exact ih5
      · rw [hbl]
        rw [hbl] at ih4 ih6
        refine List.Pairwise.cons ?_ ih6
        intro c hc
        have := (ih4 c hc).1
        simp only
        omega
      · intro d
        constructor
        · rintro ⟨hd1, hd2⟩
          by_cases hdc : d ≤ chunkEndOf s endd days
          · exact ⟨(s, chunkEndOf s endd days), by simp, hd1, hdc⟩
          · obtain ⟨c, hc, hcd⟩ := (ih7 d).mp ⟨by omega, hd2⟩
            exact ⟨c, List.mem_cons_of_mem _ hc, hcd⟩
        · rintro ⟨c, hc, hd1, hd2⟩
          rcases List.mem_cons.mp hc with hc | hc
          · subst hc
            simp only at hd1 hd2
            have := hb.2.1
            exact ⟨hd1, by omega⟩
          · obtain ⟨a1, a2, a3, a4⟩ := ih4 c hc
            exact ⟨by omega, by omega⟩
    · have hceq : chunkEndOf s endd days = endd := by omega
      have hnil : date_chunks (chunkEndOf s endd days + 1) endd days = [] :=
        date_chunks_nil _ _ _ (by omega)
      rw [hnil, hceq]
      refine ⟨by simp, by simp, by simp, ?_, by simp, by simp, ?_⟩
      · intro c hc
        simp only [List.mem_singleton] at hc
        subst hc
        refine ⟨le_rfl, hle, le_rfl, ?_⟩
        have := hb.2.2
        omega
      · intro d
        constructor
        · rintro ⟨hd1, hd2⟩
          exact ⟨(s, endd), by simp, hd1, hd2⟩
        · rintro ⟨c, hc, hd1, hd2⟩
          simp only [List.mem_singleton] at hc
          subst hc
          exact ⟨hd1, hd2⟩

/-- C3: for start ≤ end and a positive chunk size, the planner output is a
non-empty sequence whose first chunk starts at start and last chunk ends at
end, each chunk is a well-formed sub-interval of [start, end] spanning at
most days days (inclusive), consecutive chunks are contiguous (each starts
the day after the previous one ends), chunks are pairwise non-overlapping,
and the chunks cover [start, end] exactly. -/
theorem chunk_planner_covers (start endd days : Int) (hdays : 0 < days)
    (hle : start ≤ endd) :
    date_chunks start endd days ≠ [] ∧
    ((date_chunks start endd days).map Prod.fst).head? = some start ∧
    ((date_chunks start endd days).map Prod.snd).getLast? = some endd ∧
    (∀ c ∈ date_chunks start endd days,
      start ≤ c.1 ∧ c.1 ≤ c.2 ∧ c.2 ≤ endd ∧ c.2 - c.1 + 1 ≤ days) ∧
    List.Chain' (fun a b => b.1 = a.2 + 1) (date_chunks start endd days) ∧
    List.Pairwise (fun a b => a.2 < b.1) (date_chunks start endd days) ∧
    (∀ d : Int, (start ≤ d ∧ d ≤ endd) ↔
      ∃ c ∈ date_chunks start endd days, c.1 ≤ d ∧ d ≤ c.2) :=
  date_chunks_spec_aux endd days hdays ((endd - start).toNat) start hle le_rfl

theorem chunk_planner_covers_witness :
    date_chunks 0 13 MAX_CHUNK_DAYS ≠ [] ∧
    ((date_chunks 0 13 MAX_CHUNK_DAYS).map Prod.fst).head? = some 0 ∧
    ((date_chunks 0 13 MAX_CHUNK_DAYS).map Prod.snd).getLast? = some 13 ∧
    (∀ c ∈ date_chunks 0 13 MAX_CHUNK_DAYS,
      0 ≤ c.1 ∧ c.1 ≤ c.2 ∧ c.2 ≤ 13 ∧ c.2 - c.1 + 1 ≤ MAX_CHUNK_DAYS) ∧
    List.Chain' (fun a b => b.1 = a.2 + 1) (date_chunks 0 13 MAX_CHUNK_DAYS) ∧
    List.Pairwise (fun a b => a.2 < b.1) (date_chunks 0 13 MAX_CHUNK_DAYS) ∧
    (∀ d : Int, (0 ≤ d ∧ d ≤ 13) ↔
      ∃ c ∈ date_chunks 0 13 MAX_CHUNK_DAYS, c.1 ≤ d ∧ d ≤ c.2) :=
  chunk_planner_covers 0 13 MAX_CHUNK_DAYS (by decide) (by decide)

/-- Errors of the single-chunk fetcher: the oversized-range ValueError, or a
network or HTTP-status error surviving the retry policy. -/
inductive FetchErr where
  | rangeTooLarge (days : Int) : FetchErr
  | network (msg : String) : FetchErr
deriving DecidableEq, Repr

/-- The raw-to-canonical field mapping of one upstream record (fetcher.py
lines 70 to 80): fuelType copies psrType and region is the constant GB. -/
def transform_record (record : Record) : Record :=
  [("publishTime", pyGet record "publishTime"),
   ("businessType", pyGet record "businessType"),
   ("psrType", pyGet record "psrType"),
   ("fuelType", pyGet record "psrType"),
   ("quantity", pyGet record "quantity"),
   ("startTime", pyGet record "startTime"),
   ("settlementDate", pyGet record "settlementDate"),
   ("settlementPeriod", pyGet record "settlementPeriod"),
   ("region", Value.s "GB")]

/-- fetch_single_chunk (fetcher.py lines 43 to 94) against a network oracle:
net from to stands for the decoded data array of the JSON payload of one GET
(or the request or HTTP-status error still raised after the retry policy is
exhausted; the tenacity wrapper re-raises the final error, so the retries do
not change the outcome). The 7-day guard precedes the network request, so an
oversized range yields the range error whatever the oracle does. -/
def fetch_single_chunk (net : Int → Int → Except String (List Record))
    (from_dt to_dt : Int) : Except FetchErr (List Record) :=
  let days_diff := to_dt - from_dt + 1
  if days_diff > 7 then .error (.rangeTooLarge days_diff)
  else
    match net from_dt to_dt with
    | .error e => .error (.network e)
    | .ok raw_data => .ok (raw_data.map transform_record)

/-- C5: a range of strictly more than 7 inclusive days makes the single-chunk
fetcher fail with the range error independently of the network oracle (the
guard fires before any network request), and a range of at most 7 days never
produces the range error. -/
theorem chunk_fetch_range_guard (net : Int → Int → Except String (List Record))
    (from_dt to_dt : Int) :
    (to_dt - from_dt + 1 > 7 →
      fetch_single_chunk net from_dt to_dt =
        .error (.rangeTooLarge (to_dt - from_dt + 1))) ∧
    (to_dt - from_dt + 1 ≤ 7 →
      ∀ d, fetch_single_chunk net from_dt to_dt ≠ .error (.rangeTooLarge d)) := by
  constructor
  · intro h
    simp only [fetch_single_chunk]
    rw [if_pos h]
  · intro h d
    simp only [fetch_single_chunk]
    rw [if_neg (by omega)]
    cases net from_dt to_dt <;> simp

/-- Network oracle returning an empty payload for every request. -/
def netEmpty : Int → Int → Except String (List Record) :=
  fun _ _ => .ok []

theorem chunk_fetch_range_guard_witness :
    fetch_single_chunk netEmpty 0 9 = .error (.rangeTooLarge (9 - 0 + 1)) ∧
    ∀ d, fetch_single_chunk netEmpty 0 6 ≠ .error (.rangeTooLarge d) :=
  ⟨(chunk_fetch_range_guard netEmpty 0 9).1 (by decide),
   (chunk_fetch_range_guard netEmpty 0 6).2 (by decide)⟩

/-- Accumulated state of the orchestrator loop (fetcher.py lines 112
to 114). -/
structure OrchState where
  all_data : List Record
  successful_chunks : Nat
  failed_chunks : Nat
deriving DecidableEq, Repr

/-- One loop iteration of fetch_generation_data (fetcher.py lines 116 to
135): a raising chunk bumps the failure counter and the loop continues; a
chunk with data extends the accumulated list and bumps the success counter; a
chunk with an empty (falsy) payload only logs a warning. The inter-chunk
sleep is pacing with no effect on the result. -/
def orchStep (net : Int → Int → Except String (List Record))
    (st : OrchState) (chunk : Int × Int) : OrchState :=
  match fetch_single_chunk net chunk.1 chunk.2 with
  | .error _ => { st with failed_chunks := st.failed_chunks + 1 }
  | .ok data =>
      if data.isEmpty then st
      else { st with all_data := st.all_data ++ data,
                     successful_chunks := st.successful_chunks + 1 }

/-- The chunk loop of fetch_generation_data over the planned chunks. -/
def fetch_chunks_loop (net : Int → Int → Except String (List Record))
    (chunks : List (Int × Int)) : OrchState :=
  chunks.foldl (orchStep net) ⟨[], 0, 0⟩

/-- fetch_generation_data (fetcher.py lines 96 to 147): dates are day
numbers (strptime parsing of a well-formed YYYY-MM-DD string is the identity
on day numbers; malformed strings raise before the part modelled here);
start after end raises ValueError; otherwise the loop runs over the planned
chunks and only the accumulated record list is returned — the success and
failure counters are local variables that feed the log. -/
def fetch_generation_data (net : Int → Int → Except String (List Record))
    (start endd : Int) : Except String (List Record) :=
  if start > endd then .error "Start date is after end date"
  else .ok (fetch_chunks_loop net (date_chunks start endd MAX_CHUNK_DAYS)).all_data

/-- Whether a chunk fetch raised (the chunks the failure counter tallies). -/
def chunkRaised (net : Int → Int → Except String (List Record))
    (c : Int × Int) : Bool :=
  match fetch_single_chunk net c.1 c.2 with
  | .ok _ => false
  | .error _ => true

/-- Whether a chunk fetch returned a non-empty payload (the chunks the
success counter tallies). -/
def chunkHadData (net : Int → Int → Except String (List Record))
    (c : Int × Int) : Bool :=
  match fetch_single_chunk net c.1 c.2 with
  | .ok data => !data.isEmpty
  | .error _ => false

theorem fetch_loop_general (net : Int → Int → Except String (List Record))
    (chunks : List (Int × Int)) (init : OrchState) :
    (chunks.foldl (orchStep net) init).all_data =
      init.all_data ++
        (chunks.filterMap fun c => (fetch_single_chunk net c.1 c.2).toOption).flatten ∧
    (chunks.foldl (orchStep net) init).failed_chunks =
      init.failed_chunks + chunks.countP (chunkRaised net) ∧
    (chunks.foldl (orchStep net) init).successful_chunks =
      init.successful_chunks + chunks.countP (chunkHadData net) := by
  induction chunks generalizing init with
  | nil => simp
  | cons c cs ih =>
    simp only [List.foldl_cons, List.filterMap_cons, List.countP_cons]
    cases hf : fetch_single_chunk net c.1 c.2 with
    | error e =>
      have hstep : orchStep net init c =
          { init with failed_chunks := init.failed_chunks + 1 } := by
        rw [orchStep, hf]
      rw [hstep]
      obtain ⟨e1, e2, e3⟩ := ih { init with failed_chunks := init.failed_chunks + 1 }
      refine ⟨?_, ?_, ?_⟩
      · rw [e1]
        simp [hf, Except.toOption]
      · rw [e2]
        simp [chunkRaised, hf]
        omega
      · rw [e3]
        simp [chunkHadData, hf]
    | ok data =>
      by_cases hde : data.isEmpty = true
      · have hdata : data = [] := by
          cases data with
          | nil => rfl
          | cons a as => simp [List.isEmpty] at hde
        have hstep : orchStep net init c = init := by
          rw [orchStep, hf]
          simp [hde]
        rw [hstep]
        obtain ⟨e1, e2, e3⟩ := ih init
        refine ⟨?_, ?_, ?_⟩
        · rw [e1]
          simp [hf, Except.toOption, hdata]
        · rw [e2]
          simp [chunkRaised, hf]
        · rw [e3]
          simp [chunkHadData, hf, hde]
      · have hstep : orchStep net init c =
            { init with all_data := init.all_data ++ data,
                        successful_chunks := init.successful_chunks + 1 } := by
          rw [orchStep, hf]
          simp [hde]
        rw [hstep]
        obtain ⟨e1, e2, e3⟩ :=
          ih { init with all_data := init.all_data ++ data,
                         successful_chunks := init.successful_chunks + 1 }
        refine ⟨?_, ?_, ?_⟩
        · rw [e1]
          simp [hf, Except.toOption]
        · rw [e2]
          simp [chunkRaised, hf]
        · rw [e3]
          simp [chunkHadData, hf, hde]
          omega

/-- C4: chunk failures are tolerated and tallied: the loop failure counter
counts exactly the chunks whose fetch raised, the run never aborts (the
orchestrator returns ok for every valid range), the returned records are the
concatenation, in planned order, of the record lists of the chunks that did
not raise, and the total record count equals the sum of those per-chunk
counts. -/
theorem orchestrator_partial_failure
    (net : Int → Int → Except String (List Record)) (start endd : Int)
    (h : start ≤ endd) :
    fetch_generation_data net start endd =
      .ok ((date_chunks start endd MAX_CHUNK_DAYS).filterMap
            (fun c => (fetch_single_chunk net c.1 c.2).toOption)).flatten ∧
    (fetch_chunks_loop net (date_chunks start endd MAX_CHUNK_DAYS)).failed_chunks =
      (date_chunks start endd MAX_CHUNK_DAYS).countP (chunkRaised net) ∧
    (fetch_chunks_loop net (date_chunks start endd MAX_CHUNK_DAYS)).all_data.length =
      (((date_chunks start endd MAX_CHUNK_DAYS).filterMap
          (fun c => (fetch_single_chunk net c.1 c.2).toOption)).map
        List.length).sum := by
  obtain ⟨e1, e2, e3⟩ :=
    fetch_loop_general net (date_chunks start endd MAX_CHUNK_DAYS) ⟨[], 0, 0⟩
  refine ⟨?_, ?_, ?_⟩
  · rw [fetch_generation_data, if_neg (by omega), fetch_chunks_loop, e1]
    simp
  · rw [fetch_chunks_loop, e2]
    simp
  · rw [fetch_chunks_loop, e1]
    simp [List.length_flatten]

/-- Network oracle: the chunk starting at day 0 succeeds with one record,
every other chunk raises. -/
def netFlaky : Int → Int → Except String (List Record) :=
  fun from_dt _ => if from_dt = 0 then .ok [recComplete1] else .error "boom"

/-- Network oracle: the chunk starting at day 0 succeeds with one record,
every other chunk an empty payload. -/
def netSecondEmpty : Int → Int → Except String (List Record) :=
  fun from_dt _ => if from_dt = 0 then .ok [recComplete1] else .ok []

theorem orchestrator_partial_failure_witness :
    fetch_generation_data netFlaky 0 11 =
      .ok ((date_chunks 0 11 MAX_CHUNK_DAYS).filterMap
            (fun c => (fetch_single_chunk netFlaky c.1 c.2).toOption)).flatten ∧
    (fetch_chunks_loop netFlaky (date_chunks 0 11 MAX_CHUNK_DAYS)).failed_chunks =
      (date_chunks 0 11 MAX_CHUNK_DAYS).countP (chunkRaised netFlaky) ∧
    (fetch_chunks_loop netFlaky (date_chunks 0 11 MAX_CHUNK_DAYS)).all_data.length =
      (((date_chunks 0 11 MAX_CHUNK_DAYS).filterMap
          (fun c => (fetch_single_chunk netFlaky c.1 c.2).toOption)).map
        List.length).sum :=
  orchestrator_partial_failure netFlaky 0 11 (by decide)

/-- C7 counterexample: with start strictly after end the Chunk Planner does
not fail: date_chunks (which contains no raise in the source) returns a chunk
sequence, namely the empty one. -/
theorem planner_no_invalid_range_raise :
    date_chunks 1 0 MAX_CHUNK_DAYS = [] :=
  date_chunks_nil 1 0 MAX_CHUNK_DAYS (by decide)

/-- C7 amended: when start is strictly after end the planner yields the empty
chunk sequence without raising; the invalid-range ValueError is raised by the
enclosing orchestrator fetch_generation_data before iterating chunks. -/
theorem invalid_range_raised_by_orchestrator (start endd : Int)
    (h : endd < start) :
    date_chunks start endd MAX_CHUNK_DAYS = [] ∧
    ∀ net, fetch_generation_data net start endd =
      .error "Start date is after end date" := by
  refine ⟨date_chunks_nil _ _ _ (by omega), ?_⟩
  intro net
  rw [fetch_generation_data, if_pos (by omega)]

theorem invalid_range_raised_by_orchestrator_witness :
    date_chunks 1 0 MAX_CHUNK_DAYS = [] ∧
    ∀ net, fetch_generation_data net 1 0 =
      .error "Start date is after end date" :=
  invalid_range_raised_by_orchestrator 1 0 (by decide)

theorem date_chunks_zero_eleven :
    date_chunks 0 11 MAX_CHUNK_DAYS = [(0, 5), (6, 11)] := by
  have h1 : chunkEndOf 0 11 MAX_CHUNK_DAYS = 5 := by
    rw [chunkEndOf_eq]
    decide
  rw [date_chunks_unfold 0 11 MAX_CHUNK_DAYS (by decide) (by decide), h1]
  norm_num
  have h2 : chunkEndOf 6 11 MAX_CHUNK_DAYS = 11 := by
    rw [chunkEndOf_eq]
    decide
  rw [date_chunks_unfold 6 11 MAX_CHUNK_DAYS (by decide) (by decide), h2]
  norm_num
  exact date_chunks_nil 12 11 MAX_CHUNK_DAYS (by decide)

/-- C8 counterexample: the orchestrator return value carries no chunk counts:
two runs over the same planned chunks whose failed-chunk counts differ (0 for
netSecondEmpty, 1 for netFlaky) return equal values, so the counts cannot be
part of the return value. -/
theorem orchestrator_counts_not_returned :
    fetch_generation_data netSecondEmpty 0 11 =
      fetch_generation_data netFlaky 0 11 ∧
    (fetch_chunks_loop netSecondEmpty (date_chunks 0 11 MAX_CHUNK_DAYS)).failed_chunks
      = 0 ∧
    (fetch_chunks_loop netFlaky (date_chunks 0 11 MAX_CHUNK_DAYS)).failed_chunks
      = 1 := by
  rw [fetch_generation_data, fetch_generation_data, date_chunks_zero_eleven]
  rw [if_neg (by decide), if_neg (by decide)]
  refine ⟨by decide, by decide, by decide⟩

/-- C8 amended: for a valid range the orchestrator returns exactly the
concatenation of the successful chunks' records in planned order; the success
and failure counts are tracked by the loop (and logged) but are not part of
the return value. -/
theorem orchestrator_returns_records_only
    (net : Int → Int → Except String (List Record)) (start endd : Int)
    (h : start ≤ endd) :
    fetch_generation_data net start endd =
      .ok (fetch_chunks_loop net (date_chunks start endd MAX_CHUNK_DAYS)).all_data ∧
    (fetch_chunks_loop net (date_chunks start endd MAX_CHUNK_DAYS)).all_data =
      ((date_chunks start endd MAX_CHUNK_DAYS).filterMap
        (fun c => (fetch_single_chunk net c.1 c.2).toOption)).flatten := by
  refine ⟨by rw [fetch_generation_data, if_neg (by omega)], ?_⟩
  have e1 :=
    (fetch_loop_general net (date_chunks start endd MAX_CHUNK_DAYS) ⟨[], 0, 0⟩).1
  rw [fetch_chunks_loop, e1]
  simp

theorem orchestrator_returns_records_only_witness :
    fetch_generation_data netFlaky 0 11 =
      .ok (fetch_chunks_loop netFlaky (date_chunks 0 11 MAX_CHUNK_DAYS)).all_data ∧
    (fetch_chunks_loop netFlaky (date_chunks 0 11 MAX_CHUNK_DAYS)).all_data =
      ((date_chunks 0 11 MAX_CHUNK_DAYS).filterMap
        (fun c => (fetch_single_chunk netFlaky c.1 c.2).toOption)).flatten :=
  orchestrator_returns_records_only netFlaky 0 11 (by decide)

/-- C9: empty input is not an error at the fetch and deduplication stages — a
chunk fetch whose upstream payload has zero records returns the empty list,
and deduplication maps the empty list to the empty list without raising — but
the processed quality gate fails hard on empty input, returning the error
status with the no-data message. -/
theorem empty_input_policy :
    fetch_single_chunk netEmpty 0 6 = .ok [] ∧
    deduplicate_data [] = .ok [] ∧
    (validate_processed_data []).status = "error" ∧
    (validate_processed_data []).message = some "No data to validate" := by
  refine ⟨rfl, rfl, rfl, rfl⟩
